import Mathlib

/-!
# Verification of the goblin Mach-O header / string-table core

A shallow embedding of `src/mach/header.rs` and `src/strtab.rs`, together
with theorems settling the behavioural claims about them.

Conventions of the embedding:
* Byte buffers are `List Nat`, each element a byte value (`u8`); multi-byte
  reads reduce each element `% 256`, so reads agree with the Rust semantics
  on any list whose elements are in range.
* Machine integers (`u32`, `u64`, `usize`) are `Nat`; no arithmetic in the
  modelled code can overflow, so no reduction modulo `2^32` is needed beyond
  the per-byte reductions above.
* Fallible Rust functions returning `Result` become `Except Error` /
  `Option`.
* The host (the `cfg(target_endian)` in `Header::is_little_endian`) is fixed
  to little-endian, the common case; native byte order is therefore little
  endian throughout.
-/

namespace Goblin

/-- Mach Header magic constant (`header.rs`). -/
def MH_MAGIC : Nat := 0xfeedface

/-- Byte-swapped 32-bit magic (`header.rs`). -/
def MH_CIGAM : Nat := 0xcefaedfe

/-- Mach Header magic constant for 64-bit (`header.rs`). -/
def MH_MAGIC_64 : Nat := 0xfeedfacf

/-- Byte-swapped 64-bit magic (`header.rs`). -/
def MH_CIGAM_64 : Nat := 0xcffaedfe

/-- `SIZEOF_HEADER_32 = 0x1c` (`header.rs`). -/
def SIZEOF_HEADER_32 : Nat := 0x1c

/-- `SIZEOF_HEADER_64 = 32` (`header.rs`). -/
def SIZEOF_HEADER_64 : Nat := 32

/-- `container::Container`: the word-size class used by the crate
(named after endianness terms in the source, but encoding word size). -/
inductive Container where
  | Little : Container
  | Big : Container
deriving DecidableEq

/-- `scroll::Endian`. -/
inductive Endian where
  | little : Endian
  | big : Endian
deriving DecidableEq

/-- `scroll::Endian::from(is_lsb : bool)`: `true` maps to little. -/
def Endian.fromBool (b : Bool) : Endian :=
  if b then Endian.little else Endian.big

/-- `container::Ctx`: a `(Container, Endian)` pair. -/
structure Ctx where
  container : Container
  le : Endian
deriving DecidableEq

/-- Modelled from the spec: the crate error type `error::Error`
(`error.rs` is not part of the given sources).  §7 of the spec names the
two kinds used by this core: `BadMagic` carrying the offending value
widened to a `u64`, and `Malformed` carrying a message; `Scroll` stands
for errors bubbled up from the underlying `scroll` reads. -/
inductive Error where
  | Malformed : String → Error
  | BadMagic : Nat → Error
  | Scroll : Error
deriving DecidableEq

/-- Little-endian `u32` read at `off`, as performed by the `scroll` crate:
fails unless all four bytes are in bounds. -/
def readU32LE (bytes : List Nat) (off : Nat) : Option Nat :=
  match bytes[off]?, bytes[off+1]?, bytes[off+2]?, bytes[off+3]? with
  | some b0, some b1, some b2, some b3 =>
      some (b0 % 256 + 256 * (b1 % 256) + 65536 * (b2 % 256) +
            16777216 * (b3 % 256))
  | _, _, _, _ => none

/-- Big-endian `u32` read at `off` (`scroll` with `Endian::Big`). -/
def readU32BE (bytes : List Nat) (off : Nat) : Option Nat :=
  match bytes[off]?, bytes[off+1]?, bytes[off+2]?, bytes[off+3]? with
  | some b0, some b1, some b2, some b3 =>
      some (16777216 * (b0 % 256) + 65536 * (b1 % 256) + 256 * (b2 % 256) +
            b3 % 256)
  | _, _, _, _ => none

/-- `u32` read honouring a `scroll::Endian` context. -/
def readU32 (e : Endian) (bytes : List Nat) (off : Nat) : Option Nat :=
  match e with
  | Endian.little => readU32LE bytes off
  | Endian.big => readU32BE bytes off

/-- Single-byte (`u8`) read at `off`. -/
def readU8 (bytes : List Nat) (off : Nat) : Option Nat :=
  (bytes[off]?).map (fun b => b % 256)

/-- Modelled from the spec: `mach::peek(bytes, offset)` (in `mach/mod.rs`,
not part of the given sources).  Per §4.3 it reads the 4-byte magic at
`offset` without advancing; the read is in native order, i.e. little
endian for the host fixed by this embedding. -/
def peek (bytes : List Nat) (off : Nat) : Except Error Nat :=
  match readU32LE bytes off with
  | some m => Except.ok m
  | none => Except.error Error.Scroll

/-- `Header32` (`header.rs`), field names and order as in the source. -/
structure Header32 where
  magic : Nat
  cputype : Nat
  padding1 : Nat
  padding2 : Nat
  caps : Nat
  cpusubtype : Nat
  filetype : Nat
  ncmds : Nat
  sizeofcmds : Nat
  flags : Nat
deriving DecidableEq

/-- `Header64` (`header.rs`), field names and order as in the source. -/
structure Header64 where
  magic : Nat
  cputype : Nat
  cpusubtype : Nat
  padding1 : Nat
  padding2 : Nat
  caps : Nat
  filetype : Nat
  ncmds : Nat
  sizeofcmds : Nat
  flags : Nat
  reserved : Nat
deriving DecidableEq

/-- The generic sized `Header` (`header.rs`). -/
structure Header where
  magic : Nat
  cputype : Nat
  cpusubtype : Nat
  padding1 : Nat
  padding2 : Nat
  caps : Nat
  filetype : Nat
  ncmds : Nat
  sizeofcmds : Nat
  flags : Nat
  reserved : Nat
deriving DecidableEq

/-- `bytes.pread_with::<Header32>(off, e)`: the derived `scroll::Pread`
reads the fields in declaration order, `u32`s in the context byte order. -/
def preadHeader32 (bytes : List Nat) (off : Nat) (e : Endian) :
    Option Header32 :=
  match readU32 e bytes off, readU32 e bytes (off+4), readU8 bytes (off+8),
        readU8 bytes (off+9), readU8 bytes (off+10), readU8 bytes (off+11),
        readU32 e bytes (off+12), readU32 e bytes (off+16),
        readU32 e bytes (off+20), readU32 e bytes (off+24) with
  | some magic, some cputype, some p1, some p2, some caps, some cpusub,
    some filetype, some ncmds, some sizeofcmds, some flags =>
      some ⟨magic, cputype, p1, p2, caps, cpusub, filetype, ncmds,
            sizeofcmds, flags⟩
  | _, _, _, _, _, _, _, _, _, _ => none

/-- `bytes.pread_with::<Header64>(off, e)`. -/
def preadHeader64 (bytes : List Nat) (off : Nat) (e : Endian) :
    Option Header64 :=
  match readU32 e bytes off, readU32 e bytes (off+4), readU8 bytes (off+8),
        readU8 bytes (off+9), readU8 bytes (off+10), readU8 bytes (off+11),
        readU32 e bytes (off+12), readU32 e bytes (off+16),
        readU32 e bytes (off+20), readU32 e bytes (off+24),
        readU32 e bytes (off+28) with
  | some magic, some cputype, some cpusub, some p1, some p2, some caps,
    some filetype, some ncmds, some sizeofcmds, some flags, some reserved =>
      some ⟨magic, cputype, cpusub, p1, p2, caps, filetype, ncmds,
            sizeofcmds, flags, reserved⟩
  | _, _, _, _, _, _, _, _, _, _, _ => none

/-- `impl From<Header32> for Header` (`header.rs`): copies every field,
`ncmds as usize`, and sets `reserved` to `0`. -/
def Header.from32 (h : Header32) : Header :=
  { magic := h.magic
    cputype := h.cputype
    cpusubtype := h.cpusubtype
    padding1 := h.padding1
    padding2 := h.padding2
    caps := h.caps
    filetype := h.filetype
    ncmds := h.ncmds
    sizeofcmds := h.sizeofcmds
    flags := h.flags
    reserved := 0 }

/-- `impl From<Header64> for Header` (`header.rs`): copies every field,
`ncmds as usize`, `reserved` verbatim. -/
def Header.from64 (h : Header64) : Header :=
  { magic := h.magic
    cputype := h.cputype
    cpusubtype := h.cpusubtype
    padding1 := h.padding1
    padding2 := h.padding2
    caps := h.caps
    filetype := h.filetype
    ncmds := h.ncmds
    sizeofcmds := h.sizeofcmds
    flags := h.flags
    reserved := h.reserved }

/-- `Header::is_little_endian` (`header.rs`), `cfg(target_endian =
"little")` branch: the stored magic equals one of the native forms. -/
def Header.is_little_endian (h : Header) : Bool :=
  h.magic == MH_MAGIC || h.magic == MH_MAGIC_64

/-- `Header::container` (`header.rs`). -/
def Header.container (h : Header) : Container :=
  if h.magic = MH_MAGIC_64 ∨ h.magic = MH_CIGAM_64 then Container.Big
  else Container.Little

/-- `SizeWith<Container> for Header` (`header.rs`). -/
def Header.size_with (c : Container) : Nat :=
  match c with
  | Container.Little => SIZEOF_HEADER_32
  | Container.Big => SIZEOF_HEADER_64

/-- `Header::size` (`header.rs`). -/
def Header.size (h : Header) : Nat :=
  Header.size_with h.container

/-- `Header::ctx` (`header.rs`): unconditionally returns `Ok`; the two
`todo` comments in the source note the absent junk-magic check. -/
def Header.ctx (h : Header) : Except Error Ctx :=
  Except.ok ⟨h.container, Endian.fromBool h.is_little_endian⟩

/-- The `is_lsb` computed inside `Header::try_from_ctx` (`header.rs`):
whether the peeked magic is one of the byte-swapped forms. -/
def magic_is_lsb (m : Nat) : Bool :=
  m == MH_CIGAM || m == MH_CIGAM_64

/-- `Header::try_from_ctx` (`header.rs`), the buffer decode entry point:
size check on `bytes.len()` alone, magic peek at `offset`, dispatch on
the four recognized magics, read of the matching fixed variant with the
derived byte order, normalization into `Header`. -/
def Header.try_from_ctx (bytes : List Nat) (off : Nat) :
    Except Error Header :=
  let size := bytes.length
  if size < SIZEOF_HEADER_32 ∨ size < SIZEOF_HEADER_64 then
    Except.error (Error.Malformed "bytes size is smaller than an Mach-o header")
  else
    match peek bytes off with
    | Except.error e => Except.error e
    | Except.ok magic =>
      if magic = MH_CIGAM_64 ∨ magic = MH_CIGAM ∨ magic = MH_MAGIC_64 ∨
         magic = MH_MAGIC then
        let le := Endian.fromBool (magic_is_lsb magic)
        let container :=
          if magic = MH_MAGIC_64 ∨ magic = MH_CIGAM_64 then Container.Big
          else Container.Little
        match container with
        | Container.Little =>
          match preadHeader32 bytes off le with
          | some h => Except.ok (Header.from32 h)
          | none => Except.error Error.Scroll
        | Container.Big =>
          match preadHeader64 bytes off le with
          | some h => Except.ok (Header.from64 h)
          | none => Except.error Error.Scroll
      else
        Except.error (Error.BadMagic magic)

/-- Projection of the byte order `Header::try_from_ctx` uses for its field
reads (the internal `le` binding), exposed so the relation between the
decode byte order and the constructed header can be stated. -/
def decode_endian (bytes : List Nat) (off : Nat) : Option Endian :=
  if bytes.length < SIZEOF_HEADER_32 ∨ bytes.length < SIZEOF_HEADER_64 then
    none
  else
    match peek bytes off with
    | Except.error _ => none
    | Except.ok magic =>
      if magic = MH_CIGAM_64 ∨ magic = MH_CIGAM ∨ magic = MH_MAGIC_64 ∨
         magic = MH_MAGIC then
        some (Endian.fromBool (magic_is_lsb magic))
      else none

/-- Recognizer used below: does a decode result carry a `Malformed`
error? -/
def malformedResult (r : Except Error Header) : Bool :=
  match r with
  | Except.error (Error.Malformed _) => true
  | _ => false

/-- `flag_to_str` (`header.rs`): maps each of the 26 known single-bit
flag constants to its string, everything else to `"UNKNOWN FLAG"`.  The
string for `MH_PREBINDABLE` carries a trailing space, exactly as the
source literal does. -/
def flag_to_str (flag : Nat) : String :=
  match flag with
  | 0x1 => "MH_NOUNDEFS"
  | 0x2 => "MH_INCRLINK"
  | 0x4 => "MH_DYLDLINK"
  | 0x8 => "MH_BINDATLOAD"
  | 0x10 => "MH_PREBOUND"
  | 0x20 => "MH_SPLIT_SEGS"
  | 0x40 => "MH_LAZY_INIT"
  | 0x80 => "MH_TWOLEVEL"
  | 0x100 => "MH_FORCE_FLAT"
  | 0x200 => "MH_NOMULTIDEFS"
  | 0x400 => "MH_NOFIXPREBINDING"
  | 0x800 => "MH_PREBINDABLE "
  | 0x1000 => "MH_ALLMODSBOUND"
  | 0x2000 => "MH_SUBSECTIONS_VIA_SYMBOLS"
  | 0x4000 => "MH_CANONICAL"
  | 0x8000 => "MH_WEAK_DEFINES"
  | 0x10000 => "MH_BINDS_TO_WEAK"
  | 0x20000 => "MH_ALLOW_STACK_EXECUTION"
  | 0x40000 => "MH_ROOT_SAFE"
  | 0x80000 => "MH_SETUID_SAFE"
  | 0x100000 => "MH_NO_REEXPORTED_DYLIBS"
  | 0x200000 => "MH_PIE"
  | 0x400000 => "MH_DEAD_STRIPPABLE_DYLIB"
  | 0x800000 => "MH_HAS_TLV_DESCRIPTORS"
  | 0x1000000 => "MH_NO_HEAP_EXECUTION"
  | 0x2000000 => "MH_APP_EXTENSION_SAFE"
  | _ => "UNKNOWN FLAG"

/-- The 26 flag values `flag_to_str` recognizes. -/
def knownFlags : List Nat :=
  [0x1, 0x2, 0x4, 0x8, 0x10, 0x20, 0x40, 0x80, 0x100, 0x200, 0x400, 0x800,
   0x1000, 0x2000, 0x4000, 0x8000, 0x10000, 0x20000, 0x40000, 0x80000,
   0x100000, 0x200000, 0x400000, 0x800000, 0x1000000, 0x2000000]

/-! ## String table (`strtab.rs`) -/

/-- Is `b` a UTF-8 continuation byte (`10xxxxxx`)? -/
def utf8Cont (b : Nat) : Bool :=
  0x80 ≤ b && b ≤ 0xBF

/-- Allowed range of the first continuation byte of a three-byte
sequence, depending on the lead byte (overlong/surrogate exclusion). -/
def utf8Cont3 (b c1 : Nat) : Bool :=
  if b = 0xE0 then 0xA0 ≤ c1 && c1 ≤ 0xBF
  else if b = 0xED then 0x80 ≤ c1 && c1 ≤ 0x9F
  else utf8Cont c1

/-- Allowed range of the first continuation byte of a four-byte sequence,
depending on the lead byte (overlong / beyond-U+10FFFF exclusion). -/
def utf8Cont4 (b c1 : Nat) : Bool :=
  if b = 0xF0 then 0x90 ≤ c1 && c1 ≤ 0xBF
  else if b = 0xF4 then 0x80 ≤ c1 && c1 ≤ 0x8F
  else utf8Cont c1

/-- UTF-8 validity of a byte sequence, as checked by the text-decoding
step of the string read (`str::from_utf8` semantics). -/
def validUtf8 : List Nat → Bool
  | [] => true
  | b :: rest =>
    if b < 0x80 then validUtf8 rest
    else if b < 0xC2 then false
    else if b ≤ 0xDF then
      match rest with
      | c1 :: r => utf8Cont c1 && validUtf8 r
      | [] => false
    else if b ≤ 0xEF then
      match rest with
      | c1 :: c2 :: r => utf8Cont3 b c1 && utf8Cont c2 && validUtf8 r
      | _ => false
    else if b ≤ 0xF4 then
      match rest with
      | c1 :: c2 :: c3 :: r =>
          utf8Cont4 b c1 && utf8Cont c2 && utf8Cont c3 && validUtf8 r
      | _ => false
    else false

/-- Modelled from the spec: the delimiter string read
`bytes.pread_with::<&str>(offset, delim)` behind `get_str` / `Strtab::get`
(the `scroll` crate internals are not part of the given sources).  Per
§3/§4.4 an offset must be below the region length to succeed, the string
spans from `offset` up to the next delimiter, and the bytes must be valid
text; per the `to_vec` tests in the repository, a missing delimiter yields
the remainder of the region rather than an error.  Returns the string as
its list of bytes. -/
def get_str (offset : Nat) (bytes : List Nat) (delim : Nat) :
    Option (List Nat) :=
  if offset < bytes.length then
    let s := (bytes.drop offset).takeWhile (fun b => b != delim)
    if validUtf8 s then some s else none
  else none

/-- `Strtab` (`strtab.rs`): a byte region plus a delimiter byte. -/
structure Strtab where
  bytes : List Nat
  delim : Nat

/-- `Strtab::get` (`strtab.rs`). -/
def Strtab.get (t : Strtab) (offset : Nat) : Option (List Nat) :=
  get_str offset t.bytes t.delim

/-- The loop of `Strtab::to_vec` (`strtab.rs`): starting at `i`, while
`i < len` read one string, advance past it and its delimiter, and
accumulate.  `fuel` is an upper bound on the remaining iterations; each
iteration advances `i` by at least one, so `len + 1` steps always
suffice. -/
def to_vec_loop (bytes : List Nat) (delim : Nat) :
    Nat → Nat → Option (List (List Nat))
  | 0, _ => none
  | fuel + 1, i =>
    if i < bytes.length then
      match get_str i bytes delim with
      | none => none
      | some s =>
        match to_vec_loop bytes delim fuel (i + s.length + 1) with
        | none => none
        | some rest => some (s :: rest)
    else some []

/-- `Strtab::to_vec` (`strtab.rs`). -/
def Strtab.to_vec (t : Strtab) : Option (List (List Nat)) :=
  to_vec_loop t.bytes t.delim (t.bytes.length + 1) 0

/-! ## Concrete byte vectors used by the claims -/

/-- ASCII bytes of `"printf"`. -/
def sPrintf : List Nat := [112, 114, 105, 110, 116, 102]

/-- ASCII bytes of `"memmove"`. -/
def sMemmove : List Nat := [109, 101, 109, 109, 111, 118, 101]

/-- ASCII bytes of `"busta"`. -/
def sBusta : List Nat := [98, 117, 115, 116, 97]

/-- A 28-byte buffer whose leading word little-endian-decodes to
`MH_MAGIC`. -/
def bufMagic28 : List Nat := [0xce, 0xfa, 0xed, 0xfe] ++ List.replicate 24 0

/-- A 32-byte buffer whose leading word little-endian-decodes to
`MH_MAGIC`. -/
def bufMagic32 : List Nat := [0xce, 0xfa, 0xed, 0xfe] ++ List.replicate 28 0

/-- A 32-byte buffer whose leading word little-endian-decodes to
`MH_CIGAM`. -/
def bufCigam32 : List Nat := [0xfe, 0xed, 0xfa, 0xce] ++ List.replicate 28 0

/-- A 32-byte all-zero buffer. -/
def bufZero32 : List Nat := List.replicate 32 0

/-- The header value `Header::try_from_ctx` produces on a 32-byte buffer
whose leading word decodes to `MH_MAGIC` or `MH_CIGAM` and whose other
bytes are zero: the stored magic is the swapped constant. -/
def hdrSwapN : Header := ⟨0xcefaedfe, 0, 0, 0, 0, 0, 0, 0, 0, 0, 0⟩

/-- A header whose stored magic is the native narrow constant and whose
other fields are zero. -/
def hdrMagicN : Header := ⟨0xfeedface, 0, 0, 0, 0, 0, 0, 0, 0, 0, 0⟩

end Goblin

deriving instance DecidableEq for Except

namespace Goblin

/-! ## Auxiliary lemmas -/

/-- The 32-bit byte swap, on values below `2^32`. -/
def bswap32 (v : Nat) : Nat :=
  v % 256 * 16777216 + v / 256 % 256 * 65536 + v / 65536 % 256 * 256 +
    v / 16777216 % 256

theorem peek_ok (bytes : List Nat) (off m : Nat) :
    peek bytes off = Except.ok m ↔ readU32LE bytes off = some m := by
  unfold peek
  cases h : readU32LE bytes off <;> simp

theorem readU32BE_of_readU32LE (bytes : List Nat) (off v : Nat)
    (h : readU32LE bytes off = some v) :
    readU32BE bytes off = some (bswap32 v) := by
  unfold readU32LE at h
  unfold readU32BE
  cases h0 : bytes[off]? with
  | none => rw [h0] at h; simp at h
  | some b0 =>
  cases h1 : bytes[off+1]? with
  | none => rw [h0, h1] at h; simp at h
  | some b1 =>
  cases h2 : bytes[off+2]? with
  | none => rw [h0, h1, h2] at h; simp at h
  | some b2 =>
  cases h3 : bytes[off+3]? with
  | none => rw [h0, h1, h2, h3] at h; simp at h
  | some b3 =>
    rw [h0, h1, h2, h3] at h
    simp only [Option.some.injEq] at h ⊢
    unfold bswap32
    omega

theorem readU32_isSome (e : Endian) (bytes : List Nat) (off : Nat)
    (h : off + 4 ≤ bytes.length) :
    ∃ v, readU32 e bytes off = some v := by
  have g0 : bytes[off]? = some bytes[off] := List.getElem?_eq_getElem (by omega)
  have g1 : bytes[off+1]? = some bytes[off+1] := List.getElem?_eq_getElem (by omega)
  have g2 : bytes[off+2]? = some bytes[off+2] := List.getElem?_eq_getElem (by omega)
  have g3 : bytes[off+3]? = some bytes[off+3] := List.getElem?_eq_getElem (by omega)
  cases e <;> unfold readU32 readU32LE readU32BE <;> rw [g0, g1, g2, g3] <;>
    exact ⟨_, rfl⟩

theorem readU8_isSome (bytes : List Nat) (off : Nat)
    (h : off + 1 ≤ bytes.length) :
    ∃ v, readU8 bytes off = some v := by
  have g : bytes[off]? = some bytes[off] := List.getElem?_eq_getElem (by omega)
  exact ⟨_, by unfold readU8; rw [g]; rfl⟩

theorem preadHeader32_some (bytes : List Nat) (off : Nat) (e : Endian)
    (h : off + SIZEOF_HEADER_32 ≤ bytes.length) :
    ∃ h32 : Header32, preadHeader32 bytes off e = some h32 ∧
      readU32 e bytes off = some h32.magic := by
  unfold SIZEOF_HEADER_32 at h
  obtain ⟨v0, e0⟩ := readU32_isSome e bytes off (by omega)
  obtain ⟨v1, e1⟩ := readU32_isSome e bytes (off+4) (by omega)
  obtain ⟨v2, e2⟩ := readU8_isSome bytes (off+8) (by omega)
  obtain ⟨v3, e3⟩ := readU8_isSome bytes (off+9) (by omega)
  obtain ⟨v4, e4⟩ := readU8_isSome bytes (off+10) (by omega)
  obtain ⟨v5, e5⟩ := readU8_isSome bytes (off+11) (by omega)
  obtain ⟨v6, e6⟩ := readU32_isSome e bytes (off+12) (by omega)
  obtain ⟨v7, e7⟩ := readU32_isSome e bytes (off+16) (by omega)
  obtain ⟨v8, e8⟩ := readU32_isSome e bytes (off+20) (by omega)
  obtain ⟨v9, e9⟩ := readU32_isSome e bytes (off+24) (by omega)
  refine ⟨⟨v0, v1, v2, v3, v4, v5, v6, v7, v8, v9⟩, ?_, e0⟩
  unfold preadHeader32
  rw [e0, e1, e2, e3, e4, e5, e6, e7, e8, e9]

theorem preadHeader64_some (bytes : List Nat) (off : Nat) (e : Endian)
    (h : off + SIZEOF_HEADER_64 ≤ bytes.length) :
    ∃ h64 : Header64, preadHeader64 bytes off e = some h64 ∧
      readU32 e bytes off = some h64.magic := by
  unfold SIZEOF_HEADER_64 at h
  obtain ⟨v0, e0⟩ := readU32_isSome e bytes off (by omega)
  obtain ⟨v1, e1⟩ := readU32_isSome e bytes (off+4) (by omega)
  obtain ⟨v2, e2⟩ := readU8_isSome bytes (off+8) (by omega)
  obtain ⟨v3, e3⟩ := readU8_isSome bytes (off+9) (by omega)
  obtain ⟨v4, e4⟩ := readU8_isSome bytes (off+10) (by omega)
  obtain ⟨v5, e5⟩ := readU8_isSome bytes (off+11) (by omega)
  obtain ⟨v6, e6⟩ := readU32_isSome e bytes (off+12) (by omega)
  obtain ⟨v7, e7⟩ := readU32_isSome e bytes (off+16) (by omega)
  obtain ⟨v8, e8⟩ := readU32_isSome e bytes (off+20) (by omega)
  obtain ⟨v9, e9⟩ := readU32_isSome e bytes (off+24) (by omega)
  obtain ⟨v10, e10⟩ := readU32_isSome e bytes (off+28) (by omega)
  refine ⟨⟨v0, v1, v2, v3, v4, v5, v6, v7, v8, v9, v10⟩, ?_, e0⟩
  unfold preadHeader64
  rw [e0, e1, e2, e3, e4, e5, e6, e7, e8, e9, e10]

theorem preadHeader32_magic (bytes : List Nat) (off : Nat) (e : Endian)
    (h32 : Header32) (h : preadHeader32 bytes off e = some h32) :
    readU32 e bytes off = some h32.magic := by
  unfold preadHeader32 at h
  split at h
  · rename_i heq0 heq1 heq2 heq3 heq4 heq5 heq6 heq7 heq8 heq9
    simp only [Option.some.injEq] at h
    rw [heq0, ← h]
  · simp at h

theorem preadHeader64_magic (bytes : List Nat) (off : Nat) (e : Endian)
    (h64 : Header64) (h : preadHeader64 bytes off e = some h64) :
    readU32 e bytes off = some h64.magic := by
  unfold preadHeader64 at h
  split at h
  · rename_i heq0 heq1 heq2 heq3 heq4 heq5 heq6 heq7 heq8 heq9 heq10
    simp only [Option.some.injEq] at h
    rw [heq0, ← h]
  · simp at h

/-- The magic field the decode stores: re-reading the magic with the byte
order derived from the peeked magic always yields the swapped-form
constant of the word-size class of that magic. -/
theorem decoded_magic (bytes : List Nat) (off m v : Nat)
    (hle : readU32LE bytes off = some m)
    (hrd : readU32 (Endian.fromBool (magic_is_lsb m)) bytes off = some v)
    (hrec : m = MH_CIGAM_64 ∨ m = MH_CIGAM ∨ m = MH_MAGIC_64 ∨ m = MH_MAGIC) :
    v = (if m = MH_MAGIC_64 ∨ m = MH_CIGAM_64 then MH_CIGAM_64 else MH_CIGAM) := by
  rcases hrec with rfl | rfl | rfl | rfl
  · have he : Endian.fromBool (magic_is_lsb MH_CIGAM_64) = Endian.little := by decide
    rw [he] at hrd
    unfold readU32 at hrd
    rw [hle] at hrd
    simp only [Option.some.injEq] at hrd
    rw [← hrd]
    decide
  · have he : Endian.fromBool (magic_is_lsb MH_CIGAM) = Endian.little := by decide
    rw [he] at hrd
    unfold readU32 at hrd
    rw [hle] at hrd
    simp only [Option.some.injEq] at hrd
    rw [← hrd]
    decide
  · have he : Endian.fromBool (magic_is_lsb MH_MAGIC_64) = Endian.big := by decide
    rw [he] at hrd
    unfold readU32 at hrd
    rw [readU32BE_of_readU32LE bytes off MH_MAGIC_64 hle] at hrd
    simp only [Option.some.injEq] at hrd
    rw [← hrd]
    decide
  · have he : Endian.fromBool (magic_is_lsb MH_MAGIC) = Endian.big := by decide
    rw [he] at hrd
    unfold readU32 at hrd
    rw [readU32BE_of_readU32LE bytes off MH_MAGIC hle] at hrd
    simp only [Option.some.injEq] at hrd
    rw [← hrd]
    decide

theorem is_le_false_of_swapped (h : Header)
    (hm : h.magic = MH_CIGAM ∨ h.magic = MH_CIGAM_64) :
    h.is_little_endian = false := by
  unfold Header.is_little_endian
  rcases hm with hm | hm <;> rw [hm] <;> decide

theorem container_iff_magic (h : Header) :
    h.container = Container.Big ↔
      (h.magic = MH_MAGIC_64 ∨ h.magic = MH_CIGAM_64) := by
  unfold Header.container
  split
  · rename_i hc
    simp [hc]
  · rename_i hc
    simp [hc]

theorem decode_endian_some (bytes : List Nat) (off : Nat) (e : Endian)
    (m : Nat) (hend : decode_endian bytes off = some e)
    (hpeek : peek bytes off = Except.ok m) :
    e = Endian.fromBool (magic_is_lsb m) := by
  unfold decode_endian at hend
  split at hend
  · simp at hend
  · rw [hpeek] at hend
    dsimp only at hend
    split at hend
    · simp only [Option.some.injEq] at hend
      exact hend.symm
    · simp at hend

theorem fromBool_isLsb_little (m : Nat) :
    Endian.fromBool (magic_is_lsb m) = Endian.little ↔
      (m = MH_CIGAM ∨ m = MH_CIGAM_64) := by
  unfold Endian.fromBool magic_is_lsb
  by_cases h1 : m = MH_CIGAM
  · simp [h1]
  · by_cases h2 : m = MH_CIGAM_64
    · simp [h2]
    · simp [h1, h2]

/-- Successful decode: buffer passes the size check, the peeked magic is
recognized, and the matching fixed-size region fits at the offset; the
stored magic of the result is the swapped-form constant of the peeked
class of the peeked magic. -/
theorem decode_core (bytes : List Nat) (off m : Nat)
    (hm : m = MH_CIGAM_64 ∨ m = MH_CIGAM ∨ m = MH_MAGIC_64 ∨ m = MH_MAGIC)
    (hpeek : peek bytes off = Except.ok m)
    (hlen : SIZEOF_HEADER_64 ≤ bytes.length)
    (hfit : off + (if m = MH_MAGIC_64 ∨ m = MH_CIGAM_64 then SIZEOF_HEADER_64
                   else SIZEOF_HEADER_32) ≤ bytes.length) :
    ∃ h : Header, Header.try_from_ctx bytes off = Except.ok h ∧
      h.magic = (if m = MH_MAGIC_64 ∨ m = MH_CIGAM_64 then MH_CIGAM_64
                 else MH_CIGAM) := by
  have hle : readU32LE bytes off = some m := (peek_ok bytes off m).mp hpeek
  have hsz : ¬(bytes.length < SIZEOF_HEADER_32 ∨
      bytes.length < SIZEOF_HEADER_64) := by
    unfold SIZEOF_HEADER_32 SIZEOF_HEADER_64 at *
    omega
  by_cases hw : m = MH_MAGIC_64 ∨ m = MH_CIGAM_64
  · rw [if_pos hw] at hfit ⊢
    obtain ⟨h64, hp64, hmag⟩ :=
      preadHeader64_some bytes off (Endian.fromBool (magic_is_lsb m)) hfit
    refine ⟨Header.from64 h64, ?_, ?_⟩
    · unfold Header.try_from_ctx
      rw [if_neg hsz, hpeek]
      dsimp only
      rw [if_pos hm, if_pos hw]
      dsimp only
      rw [hp64]
    · have hv := decoded_magic bytes off m h64.magic hle hmag hm
      rw [if_pos hw] at hv
      exact hv
  · rw [if_neg hw] at hfit ⊢
    obtain ⟨h32, hp32, hmag⟩ :=
      preadHeader32_some bytes off (Endian.fromBool (magic_is_lsb m)) hfit
    refine ⟨Header.from32 h32, ?_, ?_⟩
    · unfold Header.try_from_ctx
      rw [if_neg hsz, hpeek]
      dsimp only
      rw [if_pos hm, if_neg hw]
      dsimp only
      rw [hp32]
    · have hv := decoded_magic bytes off m h32.magic hle hmag hm
      rw [if_neg hw] at hv
      exact hv

/-- Invariant of every successfully decoded header: the stored magic is
one of the two swapped-form constants, so (on a little-endian host)
`is_little_endian()` reports `false`. -/
theorem decode_ok_inv (bytes : List Nat) (off : Nat) (h : Header)
    (hok : Header.try_from_ctx bytes off = Except.ok h) :
    (h.magic = MH_CIGAM ∨ h.magic = MH_CIGAM_64) ∧
      h.is_little_endian = false := by
  unfold Header.try_from_ctx at hok
  dsimp only at hok
  by_cases hsz : bytes.length < SIZEOF_HEADER_32 ∨
      bytes.length < SIZEOF_HEADER_64
  case pos =>
    rw [if_pos hsz] at hok
    simp at hok
  case neg =>
    rw [if_neg hsz] at hok
    cases hpk : peek bytes off with
    | error e =>
      rw [hpk] at hok
      simp at hok
    | ok m =>
      rw [hpk] at hok
      dsimp only at hok
      have hle : readU32LE bytes off = some m := (peek_ok bytes off m).mp hpk
      split at hok
      · rename_i hrec
        by_cases hw : m = MH_MAGIC_64 ∨ m = MH_CIGAM_64
        · rw [if_pos hw] at hok
          dsimp only at hok
          cases hp : preadHeader64 bytes off (Endian.fromBool (magic_is_lsb m)) with
          | none =>
            rw [hp] at hok
            simp at hok
          | some h64 =>
            rw [hp] at hok
            simp only [Except.ok.injEq] at hok
            have hmag := preadHeader64_magic bytes off _ h64 hp
            have hv := decoded_magic bytes off m h64.magic hle hmag hrec
            rw [if_pos hw] at hv
            have hmg : h.magic = MH_CIGAM_64 := by rw [← hok]; exact hv
            exact ⟨Or.inr hmg, is_le_false_of_swapped h (Or.inr hmg)⟩
        · rw [if_neg hw] at hok
          dsimp only at hok
          cases hp : preadHeader32 bytes off (Endian.fromBool (magic_is_lsb m)) with
          | none =>
            rw [hp] at hok
            simp at hok
          | some h32 =>
            rw [hp] at hok
            simp only [Except.ok.injEq] at hok
            have hmag := preadHeader32_magic bytes off _ h32 hp
            have hv := decoded_magic bytes off m h32.magic hle hmag hrec
            rw [if_neg hw] at hv
            have hmg : h.magic = MH_CIGAM := by rw [← hok]; exact hv
            exact ⟨Or.inl hmg, is_le_false_of_swapped h (Or.inl hmg)⟩
      · simp at hok

/-! ## Claims -/

/-- C1 (corrected): the undersize check in `Header::try_from_ctx`
compares `bytes.len()` alone against the two fixed header sizes — the
offset is not subtracted — so whenever the whole buffer is shorter than
32 bytes (the larger fixed size) decode fails with the `Malformed` error
before any magic inspection, regardless of content and offset; in
particular every buffer shorter than 28 bytes fails this way. -/
theorem c1_undersize_malformed (bytes : List Nat) (off : Nat)
    (h : bytes.length < SIZEOF_HEADER_64) :
    Header.try_from_ctx bytes off =
      Except.error
        (Error.Malformed "bytes size is smaller than an Mach-o header") := by
  unfold Header.try_from_ctx
  rw [if_pos (Or.inr h)]

/-- C1 witness: the empty buffer is undersized and decode rejects it with
the `Malformed` error. -/
theorem c1_undersize_malformed_witness :
    ([] : List Nat).length < SIZEOF_HEADER_64 ∧
      Header.try_from_ctx [] 0 =
        Except.error
          (Error.Malformed "bytes size is smaller than an Mach-o header") :=
  ⟨by decide, c1_undersize_malformed [] 0 (by decide)⟩

/-- C1 counterexample: reading a 32-byte zero buffer at offset 1 leaves
`bytes.len() - offset = 31 < 32` available, yet decode passes the size
check, inspects the magic and fails with `BadMagic 0` — not with a
`Malformed` error. -/
theorem c1_counterexample :
    bufZero32.length - 1 < 32 ∧
      Header.try_from_ctx bufZero32 1 = Except.error (Error.BadMagic 0) ∧
      malformedResult (Header.try_from_ctx bufZero32 1) = false := by
  decide

/-- C2 counterexample: a 28-byte buffer whose leading word is the narrow
magic `MH_MAGIC` has exactly the matching fixed size, yet decode fails
with the undersize `Malformed` error instead of succeeding. -/
theorem c2_counterexample :
    peek bufMagic28 0 = Except.ok MH_MAGIC ∧
      bufMagic28.length = SIZEOF_HEADER_32 ∧
      Header.try_from_ctx bufMagic28 0 =
        Except.error
          (Error.Malformed "bytes size is smaller than an Mach-o header") := by
  decide

/-- C2 (amended): for each of the four magic constants, decode on a
buffer whose 4 bytes at the offset decode to that magic succeeds
provided the whole buffer is at least 32 bytes (the size check uses the
larger fixed size even for the narrow magics) and the matching
fixed-size region fits at the offset; on the result `container()` is the
wide class exactly for the two 64-bit magics, but `is_little_endian()`
returns `false` for all four magics (the decode re-reads the magic field
with the derived byte order, storing the swapped-form constant), not the
endianness the peeked magic encodes. -/
theorem c2_decode_classifies (bytes : List Nat) (off m : Nat)
    (hm : m = MH_CIGAM_64 ∨ m = MH_CIGAM ∨ m = MH_MAGIC_64 ∨ m = MH_MAGIC)
    (hpeek : peek bytes off = Except.ok m)
    (hlen : SIZEOF_HEADER_64 ≤ bytes.length)
    (hfit : off + (if m = MH_MAGIC_64 ∨ m = MH_CIGAM_64 then SIZEOF_HEADER_64
                   else SIZEOF_HEADER_32) ≤ bytes.length) :
    ∃ h : Header, Header.try_from_ctx bytes off = Except.ok h ∧
      (h.container = Container.Big ↔ (m = MH_MAGIC_64 ∨ m = MH_CIGAM_64)) ∧
      h.is_little_endian = false := by
  obtain ⟨h, hok, hmag⟩ := decode_core bytes off m hm hpeek hlen hfit
  refine ⟨h, hok, ?_, (decode_ok_inv bytes off h hok).2⟩
  rw [container_iff_magic h, hmag]
  by_cases hw : m = MH_MAGIC_64 ∨ m = MH_CIGAM_64
  · rw [if_pos hw]
    exact iff_of_true (by decide) hw
  · rw [if_neg hw]
    exact iff_of_false (by decide) hw

/-- C2 witness: a 32-byte buffer carrying the narrow native magic decodes
successfully, is classified as the narrow class, and reports
`is_little_endian() = false`. -/
theorem c2_decode_classifies_witness :
    peek bufMagic32 0 = Except.ok MH_MAGIC ∧
      SIZEOF_HEADER_64 ≤ bufMagic32.length ∧
      (∃ h : Header, Header.try_from_ctx bufMagic32 0 = Except.ok h ∧
        (h.container = Container.Big ↔
          (MH_MAGIC = MH_MAGIC_64 ∨ MH_MAGIC = MH_CIGAM_64)) ∧
        h.is_little_endian = false) :=
  ⟨by decide, by decide,
   c2_decode_classifies bufMagic32 0 MH_MAGIC (by decide) (by decide)
     (by decide) (by decide)⟩

/-- C3 (confirmed): on a buffer passing the size check, if the peeked
magic is none of the four recognized constants the decode fails with
`BadMagic` carrying that value (the widening to `u64` is the identity on
values below `2^32`). -/
theorem c3_bad_magic (bytes : List Nat) (off m : Nat)
    (hlen : SIZEOF_HEADER_64 ≤ bytes.length)
    (hpeek : peek bytes off = Except.ok m)
    (hbad : ¬(m = MH_CIGAM_64 ∨ m = MH_CIGAM ∨ m = MH_MAGIC_64 ∨
        m = MH_MAGIC)) :
    Header.try_from_ctx bytes off = Except.error (Error.BadMagic m) := by
  have hsz : ¬(bytes.length < SIZEOF_HEADER_32 ∨
      bytes.length < SIZEOF_HEADER_64) := by
    unfold SIZEOF_HEADER_32 SIZEOF_HEADER_64 at *
    omega
  unfold Header.try_from_ctx
  rw [if_neg hsz, hpeek]
  dsimp only
  rw [if_neg hbad]

/-- C3 witness: the all-zero 32-byte buffer peeks magic 0 and decode
fails with `BadMagic 0`. -/
theorem c3_bad_magic_witness :
    SIZEOF_HEADER_64 ≤ bufZero32.length ∧
      peek bufZero32 0 = Except.ok 0 ∧
      Header.try_from_ctx bufZero32 0 = Except.error (Error.BadMagic 0) :=
  ⟨by decide, by decide,
   c3_bad_magic bufZero32 0 0 (by decide) (by decide) (by decide)⟩

/-- C4 (code bug): `Header::ctx` never returns an error — its body
unconditionally returns `Ok` (the junk-magic check is only a `todo`
comment in the source) — so on a header whose stored magic is 0, which
is none of the four recognized constants, it still succeeds, returning
the `(Little, Big)` context. -/
theorem c4_ctx_never_fails :
    (∀ h : Header,
      Header.ctx h =
        Except.ok ⟨h.container, Endian.fromBool h.is_little_endian⟩) ∧
    ¬((0 : Nat) = MH_MAGIC ∨ (0 : Nat) = MH_CIGAM ∨
      (0 : Nat) = MH_MAGIC_64 ∨ (0 : Nat) = MH_CIGAM_64) ∧
    Header.ctx ⟨0, 0, 0, 0, 0, 0, 0, 0, 0, 0, 0⟩ =
      Except.ok ⟨Container.Little, Endian.big⟩ :=
  ⟨fun _ => rfl, by decide, by decide⟩

/-- C5 counterexample: decoding a 32-byte buffer whose leading bytes
little-endian-decode to `MH_CIGAM` reads the fields little-endian (the
internal `is_lsb` is true), yet `is_little_endian()` on the constructed
header reports `false`: the byte order used by the decode and the one
the header reports disagree. -/
theorem c5_counterexample :
    Header.try_from_ctx bufCigam32 0 = Except.ok hdrSwapN ∧
      decode_endian bufCigam32 0 = some Endian.little ∧
      hdrSwapN.is_little_endian = false := by
  decide

/-- C5 (amended): for every header produced by the decode entry point,
the stored magic is one of the two swapped-form constants and
`is_little_endian()` is therefore `false`; the byte order used for the
field reads is little exactly when the peeked magic was a swapped form,
so it agrees with `is_little_endian()` only on the two native magics. -/
theorem c5_endianness (bytes : List Nat) (off m : Nat) (h : Header)
    (e : Endian) (hok : Header.try_from_ctx bytes off = Except.ok h)
    (hend : decode_endian bytes off = some e)
    (hpeek : peek bytes off = Except.ok m) :
    h.is_little_endian = false ∧
      (h.magic = MH_CIGAM ∨ h.magic = MH_CIGAM_64) ∧
      (e = Endian.little ↔ (m = MH_CIGAM ∨ m = MH_CIGAM_64)) := by
  obtain ⟨hsw, hle⟩ := decode_ok_inv bytes off h hok
  refine ⟨hle, hsw, ?_⟩
  rw [decode_endian_some bytes off e m hend hpeek]
  exact fromBool_isLsb_little m

/-- C5 witness: on the native narrow magic buffer the decode byte order
is big and the constructed header stores the swapped magic. -/
theorem c5_endianness_witness :
    hdrSwapN.is_little_endian = false ∧
      (hdrSwapN.magic = MH_CIGAM ∨ hdrSwapN.magic = MH_CIGAM_64) ∧
      (Endian.big = Endian.little ↔
        (MH_MAGIC = MH_CIGAM ∨ MH_MAGIC = MH_CIGAM_64)) :=
  c5_endianness bufMagic32 0 MH_MAGIC hdrSwapN Endian.big (by decide)
    (by decide) (by decide)

/-- C6 (confirmed): for a context reconstructed from a header, the
generic size accessor returns 28 when the stored magic is one of the two
narrow constants and 32 when it is one of the two wide constants; and on
every decoded header `size()` is 28 or 32 according to `container()`. -/
theorem c6_size_roundtrip :
    (∀ (h : Header) (c : Ctx), Header.ctx h = Except.ok c →
      ((h.magic = MH_MAGIC ∨ h.magic = MH_CIGAM) →
        Header.size_with c.container = SIZEOF_HEADER_32) ∧
      ((h.magic = MH_MAGIC_64 ∨ h.magic = MH_CIGAM_64) →
        Header.size_with c.container = SIZEOF_HEADER_64)) ∧
    (∀ (bytes : List Nat) (off : Nat) (h : Header),
      Header.try_from_ctx bytes off = Except.ok h →
      (h.container = Container.Little ∧ h.size = SIZEOF_HEADER_32) ∨
      (h.container = Container.Big ∧ h.size = SIZEOF_HEADER_64)) := by
  constructor
  · intro h c hc
    have hcc : c.container = h.container := by
      unfold Header.ctx at hc
      simp only [Except.ok.injEq] at hc
      rw [← hc]
    constructor
    · intro hmag
      rw [hcc]
      unfold Header.container
      rcases hmag with hm | hm <;> rw [hm, if_neg (by decide)] <;> rfl
    · intro hmag
      rw [hcc]
      unfold Header.container
      rcases hmag with hm | hm <;> rw [hm, if_pos (by decide)] <;> rfl
  · intro bytes off h _
    cases hc : h.container with
    | Little =>
      refine Or.inl ⟨rfl, ?_⟩
      unfold Header.size
      rw [hc]
      rfl
    | Big =>
      refine Or.inr ⟨rfl, ?_⟩
      unfold Header.size
      rw [hc]
      rfl

/-- C6 witness: instantiating both parts — a header storing `MH_MAGIC`
yields a context whose container sizes to 28, and the header decoded
from the 32-byte native-narrow-magic buffer is narrow with size 28. -/
theorem c6_size_roundtrip_witness :
    Header.size_with (Ctx.mk Container.Little Endian.little).container =
      SIZEOF_HEADER_32 ∧
      ((hdrSwapN.container = Container.Little ∧
        hdrSwapN.size = SIZEOF_HEADER_32) ∨
       (hdrSwapN.container = Container.Big ∧
        hdrSwapN.size = SIZEOF_HEADER_64)) :=
  ⟨(c6_size_roundtrip.1 hdrMagicN ⟨Container.Little, Endian.little⟩
      (by decide)).1 (Or.inl rfl),
   c6_size_roundtrip.2 bufMagic32 0 hdrSwapN (by decide)⟩

/-- C10 (confirmed): normalization of either fixed variant into the
unified header copies magic, cputype, cpusubtype, the two padding bytes,
caps, filetype, sizeofcmds and flags unchanged, widens ncmds, and sets
the reserved field to 0 from the narrow variant and verbatim from the
wide variant. -/
theorem c10_normalization :
    (∀ h : Header32,
      (Header.from32 h).magic = h.magic ∧
      (Header.from32 h).cputype = h.cputype ∧
      (Header.from32 h).cpusubtype = h.cpusubtype ∧
      (Header.from32 h).padding1 = h.padding1 ∧
      (Header.from32 h).padding2 = h.padding2 ∧
      (Header.from32 h).caps = h.caps ∧
      (Header.from32 h).filetype = h.filetype ∧
      (Header.from32 h).ncmds = h.ncmds ∧
      (Header.from32 h).sizeofcmds = h.sizeofcmds ∧
      (Header.from32 h).flags = h.flags ∧
      (Header.from32 h).reserved = 0) ∧
    (∀ h : Header64,
      (Header.from64 h).magic = h.magic ∧
      (Header.from64 h).cputype = h.cputype ∧
      (Header.from64 h).cpusubtype = h.cpusubtype ∧
      (Header.from64 h).padding1 = h.padding1 ∧
      (Header.from64 h).padding2 = h.padding2 ∧
      (Header.from64 h).caps = h.caps ∧
      (Header.from64 h).filetype = h.filetype ∧
      (Header.from64 h).ncmds = h.ncmds ∧
      (Header.from64 h).sizeofcmds = h.sizeofcmds ∧
      (Header.from64 h).flags = h.flags ∧
      (Header.from64 h).reserved = h.reserved) :=
  ⟨fun _ => ⟨rfl, rfl, rfl, rfl, rfl, rfl, rfl, rfl, rfl, rfl, rfl⟩,
   fun _ => ⟨rfl, rfl, rfl, rfl, rfl, rfl, rfl, rfl, rfl, rfl, rfl⟩⟩

/-- The first element surviving `dropWhile` falsifies the predicate. -/
theorem dropWhile_head_false (p : Nat → Bool) :
    ∀ (l : List Nat) (b : Nat) (t : List Nat),
      l.dropWhile p = b :: t → p b = false := by
  intro l
  induction l with
  | nil =>
    intro b t hd
    simp [List.dropWhile] at hd
  | cons a l ih =>
    intro b t hd
    cases hp : p a with
    | true =>
      rw [List.dropWhile_cons_of_pos hp] at hd
      exact ih b t hd
    | false =>
      rw [List.dropWhile_cons_of_neg (by simp [hp])] at hd
      injection hd with hd1 _
      rw [← hd1]
      exact hp

/-- C7 counterexample: on a backing region containing no delimiter at
all (`"busta"`, delimiter 0), `get(0)` succeeds with the whole region
instead of failing as the claim requires. -/
theorem c7_counterexample :
    Strtab.get ⟨sBusta, 0⟩ 0 = some sBusta ∧
      sBusta.all (fun b => b != 0) = true := by
  decide

/-- C7 (amended): `get(offset)` fails exactly when `offset` is at or past
the end of the backing region or the scanned bytes are not valid text; a
missing delimiter is not an error — on success the returned string spans
from `offset` up to the next delimiter, or to the end of the region when
no delimiter occurs, never reading out of bounds. -/
theorem c7_get_spec :
    (∀ (t : Strtab) (offset : Nat) (s : List Nat),
      t.get offset = some s →
        offset < t.bytes.length ∧ validUtf8 s = true ∧
        s.all (fun b => b != t.delim) = true ∧
        ∃ rest, t.bytes.drop offset = s ++ rest ∧
          (∀ b, rest.head? = some b → b = t.delim)) ∧
    (∀ (t : Strtab) (offset : Nat),
      t.bytes.length ≤ offset → t.get offset = none) ∧
    (∀ (t : Strtab) (offset : Nat),
      validUtf8 ((t.bytes.drop offset).takeWhile (fun b => b != t.delim)) =
        false →
      t.get offset = none) := by
  refine ⟨?_, ?_, ?_⟩
  · intro t offset s hs
    unfold Strtab.get get_str at hs
    split at hs
    · rename_i hoff
      dsimp only at hs
      split at hs
      · rename_i hutf
        simp only [Option.some.injEq] at hs
        subst hs
        refine ⟨hoff, hutf, ?_, ?_⟩
        · rw [List.all_eq_true]
          intro x hx
          exact List.mem_takeWhile_imp (p := fun b => b != t.delim) hx
        · refine ⟨(t.bytes.drop offset).dropWhile (fun b => b != t.delim),
            (List.takeWhile_append_dropWhile (fun b => b != t.delim)
              (t.bytes.drop offset)).symm, ?_⟩
          intro b hb
          cases hd : (t.bytes.drop offset).dropWhile (fun b => b != t.delim) with
          | nil =>
            rw [hd] at hb
            simp at hb
          | cons x xs =>
            rw [hd] at hb
            simp only [List.head?] at hb
            injection hb with hb1
            have hx := dropWhile_head_false _ _ x xs hd
            simp only [bne_eq_false_iff_eq] at hx
            rw [← hb1]
            exact hx
      · simp at hs
    · simp at hs
  · intro t offset hlen
    unfold Strtab.get get_str
    rw [if_neg (by omega)]
  · intro t offset hbad
    unfold Strtab.get get_str
    split
    · dsimp only
      rw [if_neg (by rw [hbad]; simp)]
    · rfl

/-- C7 witness: on `"printf\x00memmove"` with delimiter 0, `get(0)`
returns `"printf"`, which is in bounds, valid text, delimiter-free, and
followed in the region by the delimiter. -/
theorem c7_get_spec_witness :
    0 < (sPrintf ++ 0 :: sMemmove).length ∧
      validUtf8 sPrintf = true ∧
      sPrintf.all (fun b => b != 0) = true ∧
      (∃ rest, (sPrintf ++ 0 :: sMemmove).drop 0 = sPrintf ++ rest ∧
        (∀ b, rest.head? = some b → b = 0)) :=
  c7_get_spec.1 ⟨sPrintf ++ 0 :: sMemmove, 0⟩ 0 sPrintf (by decide)

/-- C8 (confirmed): `to_vec()` walks the region from offset 0 and
returns the delimiter-separated entries in order — the four vectors of
the tests shipped in the repository: a leading delimiter yields a leading empty
entry, a trailing delimiter adds no trailing empty entry, and a
non-NUL delimiter (newline, byte 10) behaves identically. -/
theorem c8_to_vec_examples :
    Strtab.to_vec ⟨0 :: sPrintf ++ 0 :: sMemmove ++ 0 :: sBusta, 0⟩ =
      some [[], sPrintf, sMemmove, sBusta] ∧
    Strtab.to_vec ⟨sPrintf ++ 0 :: sMemmove ++ 0 :: sBusta, 0⟩ =
      some [sPrintf, sMemmove, sBusta] ∧
    Strtab.to_vec ⟨0 :: sPrintf ++ 0 :: sMemmove ++ 0 :: sBusta ++ [0], 0⟩ =
      some [[], sPrintf, sMemmove, sBusta] ∧
    Strtab.to_vec ⟨10 :: sPrintf ++ 10 :: sMemmove ++ 10 :: sBusta ++ [10],
        10⟩ =
      some [[], sPrintf, sMemmove, sBusta] := by
  decide

/-- C9 counterexample: the lookup for `MH_PREBINDABLE` (0x800) returns
the source literal `"MH_PREBINDABLE "` with a trailing space, which is
not the canonical name of the flag `"MH_PREBINDABLE"`. -/
theorem c9_counterexample :
    flag_to_str 0x800 = "MH_PREBINDABLE " ∧
      "MH_PREBINDABLE " ≠ "MH_PREBINDABLE" := by
  decide

/-- C9 (amended): the flag-name lookup returns the canonical name for 25
of the 26 known single-bit flags (the 26 values are exactly the powers
of two from `2^0` through `2^25`), returns `"MH_PREBINDABLE "` — the
canonical name plus a trailing space — for 0x800, and returns the
distinct `"UNKNOWN FLAG"` marker for every other value, including 0 and
any value with more than one bit set. -/
theorem c9_flag_names :
    ((List.range 26).map (fun k => 2 ^ k) = knownFlags ∧
     flag_to_str 0x1 = "MH_NOUNDEFS" ∧
     flag_to_str 0x2 = "MH_INCRLINK" ∧
     flag_to_str 0x4 = "MH_DYLDLINK" ∧
     flag_to_str 0x8 = "MH_BINDATLOAD" ∧
     flag_to_str 0x10 = "MH_PREBOUND" ∧
     flag_to_str 0x20 = "MH_SPLIT_SEGS" ∧
     flag_to_str 0x40 = "MH_LAZY_INIT" ∧
     flag_to_str 0x80 = "MH_TWOLEVEL" ∧
     flag_to_str 0x100 = "MH_FORCE_FLAT" ∧
     flag_to_str 0x200 = "MH_NOMULTIDEFS" ∧
     flag_to_str 0x400 = "MH_NOFIXPREBINDING" ∧
     flag_to_str 0x800 = "MH_PREBINDABLE " ∧
     flag_to_str 0x1000 = "MH_ALLMODSBOUND" ∧
     flag_to_str 0x2000 = "MH_SUBSECTIONS_VIA_SYMBOLS" ∧
     flag_to_str 0x4000 = "MH_CANONICAL" ∧
     flag_to_str 0x8000 = "MH_WEAK_DEFINES" ∧
     flag_to_str 0x10000 = "MH_BINDS_TO_WEAK" ∧
     flag_to_str 0x20000 = "MH_ALLOW_STACK_EXECUTION" ∧
     flag_to_str 0x40000 = "MH_ROOT_SAFE" ∧
     flag_to_str 0x80000 = "MH_SETUID_SAFE" ∧
     flag_to_str 0x100000 = "MH_NO_REEXPORTED_DYLIBS" ∧
     flag_to_str 0x200000 = "MH_PIE" ∧
     flag_to_str 0x400000 = "MH_DEAD_STRIPPABLE_DYLIB" ∧
     flag_to_str 0x800000 = "MH_HAS_TLV_DESCRIPTORS" ∧
     flag_to_str 0x1000000 = "MH_NO_HEAP_EXECUTION" ∧
     flag_to_str 0x2000000 = "MH_APP_EXTENSION_SAFE") ∧
    (∀ n : Nat, n ∉ knownFlags → flag_to_str n = "UNKNOWN FLAG") := by
  constructor
  · decide
  · intro n hn
    unfold flag_to_str
    split <;> simp_all [knownFlags]

/-- C9 witness: both 0 and the two-bit value 3 are outside the table and
map to the unknown marker. -/
theorem c9_flag_names_witness :
    flag_to_str 0 = "UNKNOWN FLAG" ∧ flag_to_str 3 = "UNKNOWN FLAG" :=
  ⟨c9_flag_names.2 0 (by decide), c9_flag_names.2 3 (by decide)⟩

end Goblin
